import Mathlib

/-!
Verification of the RRC-analysis repository (event-parsing/process_any.py,
event-parsing/robustnetLib.py, mobiperf-measurement/parse_mobiperf_measurements.py)
against its natural-language specification.

The Python source is shallowly embedded: class-level mutable state becomes
explicit state passing, Python `None` becomes `Option`, Python floats become
`ℚ` (all values exercised by the claims are exact in both), millisecond
timestamps become `Nat`, and Python int subtraction (which may go negative)
is carried out in `ℤ`.
-/

namespace RRC

/-- One structured occurrence, embedding class `Event` of process_any.py
(lines 53-72).  Fields `event_line`, `subtype` and `secondary_attributes`
of the source are debugging / attribute bookkeeping not referenced by any
claim and are omitted.  `RSSI`/`RSRP`/`RSRQ`/`power_ratio` model the
per-event signal snapshot; the class-level variables `Event.RSSI` and
`Event.power_ratio` are modelled by the explicit `SignalGlobals` state. -/
structure Event where
  time : Nat := 0
  event : Option String := none
  before_state : Option String := none
  after_state : Option String := none
  RSSI : Option ℚ := none
  RSRP : Option ℚ := none
  RSRQ : Option ℚ := none
  power_ratio : Option ℚ := none
deriving Repr, DecidableEq

/-- The process-wide "last known signal" context: the class variables
`Event.RSSI` and `Event.power_ratio` of process_any.py (lines 58-59). -/
structure SignalGlobals where
  RSSI : Option ℚ := none
  power_ratio : Option ℚ := none
deriving Repr, DecidableEq

/-- Python `str(x)` applied to a state that is either `None` or a string,
as used when building transition labels (`str(event.before_state)`). -/
def pyStr : Option String → String
  | none => "None"
  | some s => s

/-- The event-type string of a saved event.  In the source,
`event.event` is a string for every event that reaches the merge stage
(`__saveEvent` drops events whose type is `None`, and packet events always
get a type); the `getD ""` default is unreachable there. -/
def Event.evType (e : Event) : String := e.event.getD ""

/-- Python `s.startswith(pre)`, computed over the character lists. -/
def pyStartsWith (s pre : String) : Bool := List.isPrefixOf pre.data s.data

/-!
## The timestamp multimap and the ordering stage (§4.2, C1)

`Event.all_events` is a Python dict mapping a millisecond timestamp to the
list of events discovered at that timestamp (process_any.py lines 105-108
and 280-283: append to the existing bucket, else create a singleton
bucket).  It is modelled as an association list with distinct keys; the
key order of the list is irrelevant because the driver sorts the keys
(lines 615-616) before visiting the buckets.
-/

/-- Insert one event into the timestamp multimap: append to the bucket of
its timestamp if present, else add a new singleton bucket
(process_any.py lines 280-283 / 105-108). -/
def insertEvent (m : List (Nat × List Event)) (e : Event) : List (Nat × List Event) :=
  match m with
  | [] => [(e.time, [e])]
  | (t, es) :: rest =>
    if t = e.time then (t, es ++ [e]) :: rest else (t, es) :: insertEvent rest e

/-- Build `Event.all_events` from the discovery-ordered sequence of saved
events (trace-derived first, packet-derived after, in the driver). -/
def buildMap (evs : List Event) : List (Nat × List Event) :=
  evs.foldl insertEvent []

/-- `Event.all_events[k]`, with `[]` for a missing key. -/
def bucketGet (m : List (Nat × List Event)) (k : Nat) : List Event :=
  ((m.find? (fun p => p.1 == k)).map (·.2)).getD []

/-- `Event.all_events.keys()`. -/
def mapKeys (m : List (Nat × List Event)) : List Nat := m.map (·.1)

/-- The ordering stage, process_any.py lines 615-645: sort the keys, then
visit each bucket in increasing key order, preserving bucket order.
(Python's `sorted` is a stable sort; the keys are distinct, so any
correct sort yields the same key list.) -/
def sorted_events (m : List (Nat × List Event)) : List Event :=
  ((mapKeys m).insertionSort (· ≤ ·)).flatMap (fun k => bucketGet m k)

/-!
## Forward-fill (§4.2, C9)

process_any.py lines 631-639: while walking the merged sequence in order,
a `None` `before_state` (resp. `after_state`) inherits the most recently
seen non-null value of that field; a non-null field updates the running
value.  The two running values start as `None` (lines 618-619).
-/

/-- One forward-fill pass with explicit running values
(`last_before_state`, `last_after_state`). -/
def forwardFill (b a : Option String) : List Event → List Event
  | [] => []
  | e :: es =>
    let b' := match e.before_state with | some s => some s | none => b
    let e1 := match e.before_state with | some _ => e | none => { e with before_state := b }
    let a' := match e1.after_state with | some s => some s | none => a
    let e2 := match e1.after_state with | some _ => e1 | none => { e1 with after_state := a }
    e2 :: forwardFill b' a' es

/-!
## Quartiles (parse_mobiperf_measurements.py, C8)
-/

/-- `numpy.median`: sort, then take the middle element (odd length) or the
mean of the two middle elements (even length).  Only called on non-empty
lists in the source; the `getD` default covers the empty case (where
numpy would return NaN). -/
def median (l : List ℚ) : ℚ :=
  let s := l.insertionSort (· ≤ ·)
  if l.length % 2 = 1 then s.getD (l.length / 2) 0
  else (s.getD (l.length / 2 - 1) 0 + s.getD (l.length / 2) 0) / 2

/-- `quartiles` of parse_mobiperf_measurements.py lines 43-76, with
Python 2 integer division `len(l)/2`, `len(l)/4` rendered as `Nat`
division. -/
def quartiles (l : List ℚ) : ℚ × ℚ :=
  let s := l.insertionSort (· ≤ ·)
  let n := l.length
  if n = 1 then (s.getD 0 0, s.getD 0 0)
  else if n % 2 = 0 then
    (median (s.take (n / 2)), median (s.drop (n / 2)))
  else if n % 4 = 1 then
    let start := n / 4
    (s.getD (start - 1) 0 * (1/4) + s.getD start 0 * (3/4),
     s.getD (start * 3) 0 * (3/4) + s.getD (start * 3 + 1) 0 * (1/4))
  else
    let start := n / 4
    (s.getD start 0 * (3/4) + s.getD (start + 1) 0 * (1/4),
     s.getD (start * 3 + 1) 0 * (1/4) + s.getD (start * 3 + 2) 0 * (3/4))

/-!
## Lemmas about the timestamp multimap
-/

lemma bucketGet_nil (k : Nat) : bucketGet [] k = [] := rfl

lemma bucketGet_cons (t : Nat) (es : List Event) (rest : List (Nat × List Event)) (k : Nat) :
    bucketGet ((t, es) :: rest) k = if t = k then es else bucketGet rest k := by
  by_cases h : t = k <;> simp [bucketGet, List.find?_cons, h]

lemma bucketGet_insertEvent (m : List (Nat × List Event)) (e : Event) (k : Nat) :
    bucketGet (insertEvent m e) k
      = bucketGet m k ++ (if e.time = k then [e] else []) := by
  induction m with
  | nil =>
    by_cases h : e.time = k <;> simp [insertEvent, bucketGet_cons, bucketGet_nil, h]
  | cons p rest ih =>
    obtain ⟨t, es⟩ := p
    by_cases ht : t = e.time
    · by_cases hk : t = k
      · have h1 : e.time = k := ht.symm.trans hk
        simp [insertEvent, ht, bucketGet_cons, hk, h1]
      · have h1 : ¬ e.time = k := fun h => hk (ht.trans h)
        simp [insertEvent, ht, bucketGet_cons, hk, h1]
    · by_cases hk : t = k
      · have h1 : ¬ e.time = k := fun h => ht (hk.trans h.symm)
        have ht2 : ¬ k = e.time := fun h => ht (hk.trans h)
        simp [insertEvent, ht, bucketGet_cons, hk, h1, ht2]
      · simp [insertEvent, ht, bucketGet_cons, hk, ih]

lemma bucketGet_foldl (evs : List Event) :
    ∀ (m : List (Nat × List Event)) (k : Nat),
      bucketGet (evs.foldl insertEvent m) k
        = bucketGet m k ++ evs.filter (fun e => e.time == k) := by
  induction evs with
  | nil => intro m k; simp
  | cons e es ih =>
    intro m k
    by_cases h : e.time = k <;>
      simp [List.foldl_cons, ih, bucketGet_insertEvent, h, List.filter_cons]

/-- The bucket of `k` in the built multimap is exactly the discovery-ordered
sublist of events whose timestamp is `k`. -/
lemma bucketGet_buildMap (evs : List Event) (k : Nat) :
    bucketGet (buildMap evs) k = evs.filter (fun e => e.time == k) := by
  simpa [buildMap] using bucketGet_foldl evs [] k

lemma time_of_mem_bucket {evs : List Event} {k : Nat} {e : Event}
    (h : e ∈ bucketGet (buildMap evs) k) : e.time = k := by
  rw [bucketGet_buildMap] at h
  simpa using (List.mem_filter.mp h).2

lemma mapKeys_cons (t : Nat) (es : List Event) (rest : List (Nat × List Event)) :
    mapKeys ((t, es) :: rest) = t :: mapKeys rest := rfl

lemma mapKeys_insertEvent (m : List (Nat × List Event)) (e : Event) :
    mapKeys (insertEvent m e)
      = if e.time ∈ mapKeys m then mapKeys m else mapKeys m ++ [e.time] := by
  induction m with
  | nil => simp [insertEvent, mapKeys]
  | cons p rest ih =>
    obtain ⟨t, es⟩ := p
    by_cases ht : t = e.time
    · simp [insertEvent, ht, mapKeys_cons, List.mem_cons]
    · have ht' : ¬ e.time = t := fun h => ht h.symm
      by_cases hm : e.time ∈ mapKeys rest <;>
        simp [insertEvent, ht, mapKeys_cons, List.mem_cons, ih, hm, ht']

lemma nodup_mapKeys_foldl (evs : List Event) :
    ∀ m : List (Nat × List Event), (mapKeys m).Nodup
      → (mapKeys (evs.foldl insertEvent m)).Nodup := by
  induction evs with
  | nil => intro m h; simpa using h
  | cons e es ih =>
    intro m h
    refine ih (insertEvent m e) ?_
    rw [mapKeys_insertEvent]
    by_cases hm : e.time ∈ mapKeys m
    · simpa [hm] using h
    · simp only [hm, if_false]
      exact List.Nodup.append h (List.nodup_singleton _)
        (by simpa [List.disjoint_singleton] using hm)

lemma nodup_mapKeys_buildMap (evs : List Event) : (mapKeys (buildMap evs)).Nodup :=
  nodup_mapKeys_foldl evs [] (by simp [mapKeys])

lemma bucketGet_eq_nil_of_not_mem {m : List (Nat × List Event)} {k : Nat}
    (h : k ∉ mapKeys m) : bucketGet m k = [] := by
  induction m with
  | nil => rfl
  | cons p rest ih =>
    obtain ⟨t, es⟩ := p
    rw [mapKeys_cons] at h
    simp only [List.mem_cons] at h
    push_neg at h
    rw [bucketGet_cons, if_neg (fun hh => h.1 hh.symm)]
    exact ih h.2

lemma filter_flatMap_buckets (ks : List Nat) (f : Nat → List Event) (p : Event → Bool) :
    (ks.flatMap f).filter p = ks.flatMap (fun k => (f k).filter p) := by
  induction ks with
  | nil => rfl
  | cons k ks ih => simp [List.flatMap_cons, List.filter_append, ih]

lemma flatMap_singleton_of_nodup (ks : List Nat) (t : Nat) (l : List Event)
    (hnd : ks.Nodup) :
    ks.flatMap (fun k => if k = t then l else []) = if t ∈ ks then l else [] := by
  induction ks with
  | nil => rfl
  | cons k ks ih =>
    rcases List.nodup_cons.mp hnd with ⟨hk, hks⟩
    by_cases h : k = t
    · subst h
      have : ∀ k' ∈ ks, (if k' = k then l else []) = ([] : List Event) := by
        intro k' hk'
        have : ¬ k' = k := fun h => hk (h ▸ hk')
        simp [this]
      simp [List.flatMap_cons, List.flatMap_eq_nil_iff.mpr this]
    · have h' : ¬ t = k := fun hh => h hh.symm
      simp [List.flatMap_cons, h, ih hks, h']

/-- C1: the ordering stage (process_any.py lines 615-645) emits the events
in non-decreasing timestamp order, and for each timestamp the subsequence
at that timestamp is exactly the discovery-ordered events carrying that
timestamp (bucket order is preserved; no secondary sort key). -/
theorem merge_sorted_and_stable (evs : List Event) :
    (sorted_events (buildMap evs)).Pairwise (fun a b => a.time ≤ b.time)
    ∧ ∀ t : Nat,
        (sorted_events (buildMap evs)).filter (fun e => e.time == t)
          = evs.filter (fun e => e.time == t) := by
  set m := buildMap evs with hm
  set ks := (mapKeys m).insertionSort (· ≤ ·) with hks
  have hsorted : ks.Sorted (· ≤ ·) := List.sorted_insertionSort _ _
  have hperm : List.Perm ks (mapKeys m) := List.perm_insertionSort _ _
  have hnd : ks.Nodup := hperm.symm.nodup (nodup_mapKeys_buildMap evs)
  have hmemb : ∀ k, ∀ e ∈ bucketGet m k, e.time = k := by
    intro k e he; exact time_of_mem_bucket (hm ▸ he)
  constructor
  · rw [sorted_events, List.pairwise_flatMap]
    refine ⟨?_, ?_⟩
    · intro k _
      exact List.pairwise_of_forall_mem_list fun x hx y hy => by
        rw [hmemb k x hx, hmemb k y hy]
    · refine hsorted.imp ?_
      intro a b hab x hx y hy
      rw [hmemb a x hx, hmemb b y hy]
      exact hab
  · intro t
    rw [sorted_events, filter_flatMap_buckets]
    have hfilter : ∀ k, (bucketGet m k).filter (fun e => e.time == t)
        = if k = t then bucketGet m t else [] := by
      intro k
      by_cases hk : k = t
      · subst hk
        simp only [if_pos rfl]
        apply List.filter_eq_self.mpr
        intro e he
        simpa using hmemb _ e he
      · simp only [if_neg hk]
        apply List.filter_eq_nil_iff.mpr
        intro e he
        have := hmemb k e he
        simp [this, hk]
    simp only [hfilter]
    rw [flatMap_singleton_of_nodup ks t _ hnd]
    by_cases hmem : t ∈ ks
    · simp only [if_pos hmem]
      exact hm ▸ bucketGet_buildMap evs t
    · simp only [if_neg hmem]
      have : t ∉ mapKeys m := fun h => hmem (hperm.mem_iff.mpr h)
      have hnil : bucketGet m t = [] := bucketGet_eq_nil_of_not_mem this
      rw [← bucketGet_buildMap evs t, ← hm, hnil]

/-!
## Forward-fill idempotence (C9)
-/

lemma forwardFill_idem_aux (l : List Event) :
    ∀ b a : Option String, forwardFill b a (forwardFill b a l) = forwardFill b a l := by
  induction l with
  | nil => intro b a; rfl
  | cons e es ih =>
    intro b a
    cases hb : e.before_state <;> cases ha : e.after_state <;>
      cases b <;> cases a <;>
        simp [forwardFill, hb, ha, ih]

/-- C9: the forward-fill pass of the ordering stage (process_any.py lines
618-639, running values initialised to `None`) is idempotent: applying it
twice to any merged event sequence gives the same sequence of events, in
particular the same `before_state`/`after_state` fields, as applying it
once. -/
theorem forwardFill_idempotent (l : List Event) :
    forwardFill none none (forwardFill none none l) = forwardFill none none l :=
  forwardFill_idem_aux l none none

/-!
## Quartile values (C8)
-/

/-- C8 counterexample: the source `quartiles` (parse_mobiperf_measurements.py
lines 43-76) applied to `[1,2,3,4,5]` returns `(1.75, 4.25)`, not the
`(1.5, 4.5)` asserted by the claim. -/
theorem quartiles_five_ne_claimed :
    quartiles [1, 2, 3, 4, 5] ≠ ((3:ℚ)/2, (9:ℚ)/2)
    ∧ quartiles [1, 2, 3, 4, 5] = (7/4, 17/4) := by
  have h : quartiles [1, 2, 3, 4, 5] = (7/4, 17/4) := by
    simp [quartiles, List.insertionSort, List.orderedInsert, median]
    norm_num
  refine ⟨?_, h⟩
  rw [h]
  intro hc
  have := congrArg Prod.fst hc
  norm_num at this

/-- C8 amended: the values `quartiles` actually computes on the claimed
list sizes 1, 5, 6, 7, 8: `[3] → (3,3)`; even sizes give the median of
each half (`[1..6] → (2,5)`, `[1..8] → (5/2, 13/2)`); odd sizes ≥ 5 give
the source's weighted values `[1..5] → (7/4, 17/4)` and
`[1..7] → (9/4, 23/4)`. -/
theorem quartiles_values :
    quartiles [3] = (3, 3)
    ∧ quartiles [1, 2, 3, 4, 5] = (7/4, 17/4)
    ∧ quartiles [1, 2, 3, 4, 5, 6] = (2, 5)
    ∧ quartiles [1, 2, 3, 4, 5, 6] = (median [1, 2, 3], median [4, 5, 6])
    ∧ quartiles [1, 2, 3, 4, 5, 6, 7] = (9/4, 23/4)
    ∧ quartiles [1, 2, 3, 4, 5, 6, 7, 8] = (5/2, 13/2)
    ∧ quartiles [1, 2, 3, 4, 5, 6, 7, 8] = (median [1, 2, 3, 4], median [5, 6, 7, 8]) := by
  refine ⟨?_, ?_, ?_, ?_, ?_, ?_, ?_⟩ <;>
    · simp [quartiles, List.insertionSort, List.orderedInsert, median]
      try norm_num

/-!
## The Transition segmenter (process_any.py lines 294-377 and 653-666)

Class `Transition` is embedded with explicit state.  The per-event-type
maps `time_to_reach_first`/`time_to_reach_last` are Python dicts from an
event-type string to `None` or an int; they are modelled as association
lists with `Option ℤ` values (Python int subtraction may go negative on
unsorted input).  The parallel bookkeeping fields `duplicates_first`/
`duplicates_last`/`duplicates_all` and `attributes_first`/`attributes_last`/
`attributes_all`, and the unused local `interferers`, are not referenced
by any claim and are omitted.  `Event.distinct_events`, fixed by the time
segmentation runs, is passed as the explicit key list `D`.
-/

/-- One run-length entry of `Transition.between`: `[event_type, count,
representative_event]`, the representative being the first event of the
run (process_any.py lines 348-352). -/
structure RunEntry where
  type : String
  count : Nat
  rep : Event
deriving Repr, DecidableEq

/-- Python dict lookup `d[k]` on the modelled `Option ℤ`-valued dicts:
`none` = key absent, `some v` = key present with value `v`. -/
def dget (d : List (String × Option ℤ)) (k : String) : Option (Option ℤ) :=
  ((d.find? (fun p => p.1 == k)).map (·.2))

/-- Python dict assignment `d[k] = v`: overwrite the existing entry,
else append a new one. -/
def dset (d : List (String × Option ℤ)) (k : String) (v : Option ℤ) :
    List (String × Option ℤ) :=
  match d with
  | [] => [(k, v)]
  | (k', v') :: rest => if k' = k then (k, v) :: rest else (k', v') :: dset rest k v

/-- Class `Transition` of process_any.py (lines 294-332), restricted to the
fields the claims refer to. -/
structure Transition where
  state : Option String
  begin_time : Nat
  end_time : Nat
  transition : Option String
  after_transition : Option String
  between : List RunEntry
  time_to_reach_first : List (String × Option ℤ)
  time_to_reach_last : List (String × Option ℤ)
  RSSI : Option ℚ
  power_ratio : Option ℚ
deriving Repr, DecidableEq

/-- `Transition.__init__` (lines 314-332): the driver passes either the
literal string `"None"` (line 653) or an event's `after_state` (line 666)
as `state`.  `D` is `Event.distinct_events`, over which `__create_dict`
pre-populates the per-type maps with `None` values. -/
def Transition.init (state : Option String) (time : Nat) (D : List String) : Transition :=
  { state := state
    begin_time := time
    end_time := 0
    transition := none
    after_transition := none
    between := []
    time_to_reach_first := D.map (fun v => (v, none))
    time_to_reach_last := D.map (fun v => (v, none))
    RSSI := none
    power_ratio := none }

/-- `Transition.filter_meta` (line 298), empty in the source. -/
def filter_meta : List String := []

/-- Run-length append into `between` (lines 348-352): bump the count of the
last entry if it has the same type, keeping its original representative
event, else append a fresh entry. -/
def addRun (l : List RunEntry) (e : Event) : List RunEntry :=
  match l with
  | [] => [⟨e.evType, 1, e⟩]
  | [x] => if x.type = e.evType then [⟨x.type, x.count + 1, x.rep⟩]
           else [x, ⟨e.evType, 1, e⟩]
  | x :: y :: xs => x :: addRun (y :: xs) e

/-- `Transition.update` (lines 334-357).  Returns the updated transition
and the Python return value (`false` = this event closed the transition). -/
def Transition.update (t : Transition) (e : Event) : Transition × Bool :=
  let t1 : Transition :=
    { t with RSSI := if e.RSSI ≠ none then e.RSSI else t.RSSI
             power_ratio := if e.power_ratio ≠ none then e.power_ratio else t.power_ratio }
  if e.after_state ≠ t1.state ∧ ¬ (pyStartsWith e.evType "PACKET") then
    ({ t1 with after_transition := some (pyStr e.before_state ++ " -> " ++ pyStr e.after_state)
               end_time := e.time }, false)
  else
    let t2 : Transition :=
      if e.evType ∈ filter_meta then t1 else { t1 with between := addRun t1.between e }
    let t3 : Transition :=
      if ¬ (pyStartsWith e.evType "PACKET") then
        { t2 with state := e.after_state
                  transition := if t2.transition = none
                    then some (pyStr e.before_state ++ " -> " ++ pyStr e.after_state)
                    else t2.transition }
      else t2
    (t3, true)

/-- One iteration of the loop of `Transition.find_stats_and_finalize`
(lines 359-376), restricted to the `time_to_reach_first`/`time_to_reach_last`
updates (the duplicate/attribute bookkeeping is omitted, see above). -/
def Transition.finalizeStep (t : Transition) (item : RunEntry) : Transition :=
  let t1 : Transition :=
    if dget t.time_to_reach_first item.type = some none then
      { t with time_to_reach_first :=
          (dset t.time_to_reach_first item.type (some ((item.rep.time : ℤ) - (t.begin_time : ℤ)))) }
    else t
  { t1 with time_to_reach_last :=
      (dset t1.time_to_reach_last item.type (some ((t1.end_time : ℤ) - (item.rep.time : ℤ)))) }

/-- `Transition.find_stats_and_finalize` (lines 359-376); its `event`
parameter is shadowed by the loop variable and unused. -/
def Transition.find_stats_and_finalize (t : Transition) : Transition :=
  t.between.foldl Transition.finalizeStep t

/-- The segmentation loop of the driver (process_any.py lines 653-666):
fold the ordered events into the open transition; when an event closes it,
finalize the closed transition, collect it, and open a fresh transition at
the closing event's `after_state` and time.  The transition still open at
the end of the input is never finalized (as in the source, where only
closed transitions are filed).  Returns the closed-and-finalized
transitions in order. -/
def segmentAll (D : List String) : List Event → Transition → List Transition
  | [], _ => []
  | e :: es, t =>
    match t.update e with
    | (t', true) => segmentAll D es t'
    | (t', false) =>
        t'.find_stats_and_finalize ::
          segmentAll D es (Transition.init e.after_state e.time D)

/-!
## The boundary test (C2)
-/

/-- C2: an event closes the open Transition (update returns `False`) iff
its `after_state` differs from the transition's `state` and its type does
not start with `"PACKET"`; in particular `PACKET_SENT`/`PACKET_RCV`/
`PACKET_OTHER` events never close a transition and never change
`transition.state`, and a closing event is not appended to the closed
transition's `between` list (process_any.py lines 334-357). -/
theorem update_boundary (t : Transition) (e : Event) :
    ((t.update e).2 = false ↔
      (e.after_state ≠ t.state ∧ pyStartsWith e.evType "PACKET" = false))
    ∧ ((e.event = some "PACKET_SENT" ∨ e.event = some "PACKET_RCV"
          ∨ e.event = some "PACKET_OTHER") →
        (t.update e).2 = true ∧ (t.update e).1.state = t.state)
    ∧ ((t.update e).2 = false → (t.update e).1.between = t.between) := by
  by_cases h : e.after_state ≠ t.state ∧ ¬ (pyStartsWith e.evType "PACKET")
  case pos =>
    have hupdate : (t.update e).2 = false ∧ (t.update e).1.between = t.between := by
      simp only [Transition.update]
      split
      · exact ⟨rfl, rfl⟩
      · next hc => exact absurd h hc
    refine ⟨?_, ?_, fun _ => hupdate.2⟩
    · exact ⟨fun _ => ⟨h.1, by simpa using h.2⟩, fun _ => hupdate.1⟩
    · rintro (hev | hev | hev) <;>
        · exfalso
          apply h.2
          rw [Event.evType, hev]
          decide
  case neg =>
    have hupdate : (t.update e).2 = true := by
      simp only [Transition.update]
      split
      · next hc => exact absurd hc h
      · rfl
    refine ⟨?_, ?_, ?_⟩
    · constructor
      · intro hf
        rw [hupdate] at hf
        cases hf
      · rintro ⟨h1, h2⟩
        exact absurd ⟨h1, by simp [h2]⟩ h
    · intro hev
      have hstarts : pyStartsWith e.evType "PACKET" = true := by
        rcases hev with hev | hev | hev <;> (rw [Event.evType, hev]; decide)
      refine ⟨hupdate, ?_⟩
      simp only [Transition.update]
      split
      · next hc => exact absurd hc h
      · simp [hstarts, filter_meta]
    · intro hclose
      rw [hupdate] at hclose
      cases hclose

/-- The driver's initial transition (process_any.py line 653) over the
initial distinct-event set, used as a concrete instance. -/
def tInit : Transition := Transition.init (some "None") 0 ["PACKET_SENT", "PACKET_RCV"]

/-- A concrete packet-derived event. -/
def ePacket : Event :=
  { time := 3, event := some "PACKET_SENT", after_state := some "Connected" }

/-- A concrete state-change event whose `after_state` differs from
`tInit.state`. -/
def eClosing : Event :=
  { time := 5, event := some "EVENT_LTE_RRC_STATE_CHANGE",
    before_state := some "Idle Camped", after_state := some "Connected" }

theorem update_boundary_witness :
    ((tInit.update ePacket).2 = true ∧ (tInit.update ePacket).1.state = tInit.state)
    ∧ (tInit.update eClosing).1.between = tInit.between :=
  ⟨(update_boundary tInit ePacket).2.1 (Or.inl rfl),
   (update_boundary tInit eClosing).2.2 (by decide)⟩

/-!
## Transition stats invariants (C3)
-/

/-- The event sequence is in non-decreasing timestamp order (what the
ordering stage guarantees, see C1). -/
def sortedByTime (l : List Event) : Prop := l.Pairwise (fun a b => a.time ≤ b.time)

instance (l : List Event) : Decidable (sortedByTime l) := by
  unfold sortedByTime
  infer_instance

/-- A `time_to_reach` value lies in `[0, end_time - begin_time]` unless it
is `None`. -/
def inSpan (tf : Transition) (ov : Option ℤ) : Prop :=
  ∀ v, ov = some v → 0 ≤ v ∧ v ≤ (tf.end_time : ℤ) - (tf.begin_time : ℤ)

/-- Both per-type time maps of `tf` only hold `None`-or-in-span values. -/
def GoodMaps (tf : Transition) : Prop :=
  (∀ p ∈ tf.time_to_reach_first, inSpan tf p.2)
  ∧ (∀ p ∈ tf.time_to_reach_last, inSpan tf p.2)

lemma mem_dset (d : List (String × Option ℤ)) (k : String) (v : Option ℤ) :
    ∀ p ∈ dset d k v, p ∈ d ∨ p.2 = v := by
  induction d with
  | nil => intro p hp; simp [dset] at hp; right; rw [hp]
  | cons q rest ih =>
    intro p hp
    obtain ⟨k', v'⟩ := q
    by_cases hk : k' = k
    · simp only [dset, if_pos hk] at hp
      rcases List.mem_cons.mp hp with hp | hp
      · right; rw [hp]
      · left; exact List.mem_cons_of_mem _ hp
    · simp only [dset, if_neg hk] at hp
      rcases List.mem_cons.mp hp with hp | hp
      · left; rw [hp]; exact List.mem_cons_self _ _
      · rcases ih p hp with h | h
        · left; exact List.mem_cons_of_mem _ h
        · right; exact h

lemma finalizeStep_fields (t : Transition) (item : RunEntry) :
    (t.finalizeStep item).begin_time = t.begin_time
    ∧ (t.finalizeStep item).end_time = t.end_time
    ∧ (t.finalizeStep item).between = t.between := by
  simp only [Transition.finalizeStep]
  split <;> exact ⟨rfl, rfl, rfl⟩

lemma finalizeStep_first (t : Transition) (item : RunEntry) :
    (t.finalizeStep item).time_to_reach_first = t.time_to_reach_first
    ∨ (t.finalizeStep item).time_to_reach_first
        = dset t.time_to_reach_first item.type
            (some ((item.rep.time : ℤ) - (t.begin_time : ℤ))) := by
  simp only [Transition.finalizeStep]
  split
  · right; rfl
  · left; rfl

lemma finalizeStep_last (t : Transition) (item : RunEntry) :
    (t.finalizeStep item).time_to_reach_last
      = dset t.time_to_reach_last item.type
          (some ((t.end_time : ℤ) - (item.rep.time : ℤ))) := by
  simp only [Transition.finalizeStep]
  split <;> rfl

lemma finalizeStep_good (t : Transition) (item : RunEntry)
    (hb1 : (t.begin_time : ℤ) ≤ item.rep.time) (hb2 : (item.rep.time : ℤ) ≤ t.end_time)
    (hg : GoodMaps t) : GoodMaps (t.finalizeStep item) := by
  obtain ⟨hfirst, hlast⟩ := hg
  have hfields := finalizeStep_fields t item
  have htrans : ∀ ov, inSpan t ov → inSpan (t.finalizeStep item) ov := by
    intro ov hov v hv
    rcases hov v hv with ⟨h1, h2⟩
    rw [hfields.1, hfields.2.1]
    exact ⟨h1, h2⟩
  constructor
  · intro p hp
    rcases finalizeStep_first t item with hEq | hEq
    · rw [hEq] at hp
      exact htrans _ (hfirst p hp)
    · rw [hEq] at hp
      rcases mem_dset _ _ _ p hp with h | h
      · exact htrans _ (hfirst p h)
      · intro v hv
        rw [h] at hv
        injection hv with hv
        rw [hfields.1, hfields.2.1]
        omega
  · intro p hp
    rw [finalizeStep_last t item] at hp
    rcases mem_dset _ _ _ p hp with h | h
    · exact htrans _ (hlast p h)
    · intro v hv
      rw [h] at hv
      injection hv with hv
      rw [hfields.1, hfields.2.1]
      omega

lemma finalize_fold_good :
    ∀ (items : List RunEntry) (t : Transition),
      (∀ x ∈ items, (t.begin_time : ℤ) ≤ x.rep.time ∧ (x.rep.time : ℤ) ≤ t.end_time) →
      GoodMaps t →
      GoodMaps (items.foldl Transition.finalizeStep t)
      ∧ (items.foldl Transition.finalizeStep t).begin_time = t.begin_time
      ∧ (items.foldl Transition.finalizeStep t).end_time = t.end_time := by
  intro items
  induction items with
  | nil => intro t _ hg; exact ⟨hg, rfl, rfl⟩
  | cons x xs ih =>
    intro t hb hg
    have hx := hb x (List.mem_cons_self _ _)
    have hfields := finalizeStep_fields t x
    have hb' : ∀ y ∈ xs, ((t.finalizeStep x).begin_time : ℤ) ≤ y.rep.time
        ∧ (y.rep.time : ℤ) ≤ (t.finalizeStep x).end_time := by
      intro y hy
      rw [hfields.1, hfields.2.1]
      exact hb y (List.mem_cons_of_mem _ hy)
    have hg' := finalizeStep_good t x hx.1 hx.2 hg
    have hrec := ih (t.finalizeStep x) hb' hg'
    refine ⟨?_, ?_, ?_⟩ <;> rw [List.foldl_cons]
    · exact hrec.1
    · rw [hrec.2.1, hfields.1]
    · rw [hrec.2.2, hfields.2.1]

lemma find_stats_good (t : Transition)
    (hb : ∀ x ∈ t.between, (t.begin_time : ℤ) ≤ x.rep.time ∧ (x.rep.time : ℤ) ≤ t.end_time)
    (hg : GoodMaps t) :
    GoodMaps t.find_stats_and_finalize
    ∧ t.find_stats_and_finalize.begin_time = t.begin_time
    ∧ t.find_stats_and_finalize.end_time = t.end_time :=
  finalize_fold_good t.between t hb hg

lemma update_preserved (t : Transition) (e : Event) :
    (t.update e).1.time_to_reach_first = t.time_to_reach_first
    ∧ (t.update e).1.time_to_reach_last = t.time_to_reach_last
    ∧ (t.update e).1.begin_time = t.begin_time := by
  simp only [Transition.update]
  split
  · exact ⟨rfl, rfl, rfl⟩
  · split <;> split <;> exact ⟨rfl, rfl, rfl⟩

lemma update_close (t : Transition) (e : Event) (h : (t.update e).2 = false) :
    (t.update e).1.between = t.between ∧ (t.update e).1.end_time = e.time := by
  simp only [Transition.update] at h ⊢
  split
  · exact ⟨rfl, rfl⟩
  · next hc =>
      rw [if_neg hc] at h
      simp at h

lemma mem_addRun (e : Event) :
    ∀ (l : List RunEntry), ∀ x ∈ addRun l e,
      x ∈ l ∨ x.rep = e ∨ ∃ y ∈ l, x.rep = y.rep
  | [] => by
      intro x hx
      simp only [addRun, List.mem_singleton] at hx
      right; left
      rw [hx]
  | [a] => by
      intro x hx
      by_cases hc : a.type = e.evType
      · simp only [addRun, if_pos hc, List.mem_singleton] at hx
        right; right
        exact ⟨a, List.mem_singleton_self a, by rw [hx]⟩
      · simp [addRun, hc] at hx
        rcases hx with hx | hx
        · left; rw [hx]; exact List.mem_singleton_self a
        · right; left; rw [hx]
  | a :: b :: xs => by
      intro x hx
      simp only [addRun] at hx
      rcases List.mem_cons.mp hx with hx | hx
      · left
        rw [hx]
        exact List.mem_cons_self _ _
      · rcases mem_addRun e (b :: xs) x hx with h | h | ⟨y, hy, hxy⟩
        · left; exact List.mem_cons_of_mem _ h
        · right; left; exact h
        · right; right; exact ⟨y, List.mem_cons_of_mem _ hy, hxy⟩

lemma update_open_between (t : Transition) (e : Event) (h : (t.update e).2 = true) :
    ∀ x ∈ (t.update e).1.between,
      x ∈ t.between ∨ x.rep = e ∨ ∃ y ∈ t.between, x.rep = y.rep := by
  intro x hx
  simp only [Transition.update] at hx
  split at hx
  · simp only [Transition.update] at h
    rw [if_pos (by assumption)] at h
    cases h
  · revert hx
    split <;> split <;>
      first
        | exact fun hx => Or.inl hx
        | exact fun hx => mem_addRun e t.between x hx

/-- Invariant of the open transition during the segmentation fold: its
span start does not exceed any remaining event's time, every recorded
run representative lies between the span start and all remaining events,
and its time maps are still all-`None` (only finalization writes them). -/
def OpenInv (t : Transition) (evs : List Event) : Prop :=
  (∀ e ∈ evs, t.begin_time ≤ e.time)
  ∧ (∀ x ∈ t.between, t.begin_time ≤ x.rep.time ∧ ∀ e ∈ evs, x.rep.time ≤ e.time)
  ∧ (∀ p ∈ t.time_to_reach_first, p.2 = none)
  ∧ (∀ p ∈ t.time_to_reach_last, p.2 = none)

/-- What C3 asserts of a closed-and-finalized transition. -/
def GoodClosed (tf : Transition) : Prop :=
  tf.begin_time ≤ tf.end_time ∧ GoodMaps tf

lemma segmentAll_good (D : List String) :
    ∀ (evs : List Event) (t : Transition), sortedByTime evs → OpenInv t evs →
      ∀ tf ∈ segmentAll D evs t, GoodClosed tf := by
  intro evs
  induction evs with
  | nil =>
    intro t _ _ tf htf
    simp [segmentAll] at htf
  | cons e es ih =>
    intro t hs hinv tf htf
    obtain ⟨hinv1, hinv2, hinv3, hinv4⟩ := hinv
    have hs' : sortedByTime es := hs.of_cons
    have hhead : ∀ e' ∈ es, e.time ≤ e'.time := (List.pairwise_cons.mp hs).1
    rcases hu : t.update e with ⟨t', b⟩
    have hpres := update_preserved t e
    rw [hu] at hpres
    simp only [segmentAll, hu] at htf
    cases b
    case false =>
      have hclose := update_close t e (by rw [hu])
      rw [hu] at hclose
      rcases List.mem_cons.mp htf with htf | htf
      · -- tf is the closed transition, finalized
        have hbounds : ∀ x ∈ t'.between,
            (t'.begin_time : ℤ) ≤ x.rep.time ∧ (x.rep.time : ℤ) ≤ t'.end_time := by
          intro x hx
          rw [hclose.1] at hx
          rw [hpres.2.2, hclose.2]
          have h2 := hinv2 x hx
          exact ⟨by exact_mod_cast h2.1,
                 by exact_mod_cast h2.2 e (List.mem_cons_self _ _)⟩
        have hmaps : GoodMaps t' := by
          constructor
          · intro p hp v hv
            rw [hpres.1] at hp
            rw [hinv3 p hp] at hv
            cases hv
          · intro p hp v hv
            rw [hpres.2.1] at hp
            rw [hinv4 p hp] at hv
            cases hv
        have hout := find_stats_good t' hbounds hmaps
        rw [htf]
        refine ⟨?_, hout.1⟩
        rw [hout.2.1, hout.2.2, hpres.2.2, hclose.2]
        exact hinv1 e (List.mem_cons_self _ _)
      · -- tf comes from the rest of the fold, with a fresh open transition
        refine ih (Transition.init e.after_state e.time D) hs' ?_ tf htf
        refine ⟨hhead, ?_, ?_, ?_⟩
        · intro x hx
          simp [Transition.init] at hx
        · intro p hp
          simp only [Transition.init, List.mem_map] at hp
          obtain ⟨a, _, h⟩ := hp
          rw [← h]
        · intro p hp
          simp only [Transition.init, List.mem_map] at hp
          obtain ⟨a, _, h⟩ := hp
          rw [← h]
    case true =>
      refine ih t' hs' ?_ tf htf
      have hopen := update_open_between t e (by rw [hu])
      rw [hu] at hopen
      refine ⟨?_, ?_, ?_, ?_⟩
      · intro e' he'
        rw [hpres.2.2]
        exact hinv1 e' (List.mem_cons_of_mem _ he')
      · intro x hx
        rw [hpres.2.2]
        rcases hopen x hx with h | h | ⟨y, hy, hxy⟩
        · exact ⟨(hinv2 x h).1, fun e' he' => (hinv2 x h).2 e' (List.mem_cons_of_mem _ he')⟩
        · rw [h]
          exact ⟨hinv1 e (List.mem_cons_self _ _), hhead⟩
        · rw [hxy]
          exact ⟨(hinv2 y hy).1, fun e' he' => (hinv2 y hy).2 e' (List.mem_cons_of_mem _ he')⟩
      · intro p hp
        rw [hpres.1] at hp
        exact hinv3 p hp
      · intro p hp
        rw [hpres.2.1] at hp
        exact hinv4 p hp

lemma dget_mem (d : List (String × Option ℤ)) (k : String) (w : Option ℤ)
    (h : dget d k = some w) : ∃ p ∈ d, p.2 = w := by
  unfold dget at h
  cases hf : d.find? (fun p => p.1 == k) with
  | none => rw [hf] at h; cases h
  | some p =>
    rw [hf] at h
    injection h with h
    exact ⟨p, List.mem_of_find?_eq_some hf, h⟩

/-- C3: over a timestamp-ordered event sequence, every transition closed
and finalized by the segmentation loop (process_any.py lines 653-666) has
`end_time >= begin_time`, and every key of `time_to_reach_first` /
`time_to_reach_last` holds either `None` or a value in
`[0, end_time - begin_time]`. -/
theorem transition_time_bounds (D : List String) (evs : List Event)
    (hs : sortedByTime evs) :
    ∀ tf ∈ segmentAll D evs (Transition.init (some "None") 0 D),
      tf.begin_time ≤ tf.end_time
      ∧ (∀ k v, dget tf.time_to_reach_first k = some (some v) →
            0 ≤ v ∧ v ≤ (tf.end_time : ℤ) - (tf.begin_time : ℤ))
      ∧ (∀ k v, dget tf.time_to_reach_last k = some (some v) →
            0 ≤ v ∧ v ≤ (tf.end_time : ℤ) - (tf.begin_time : ℤ)) := by
  intro tf htf
  have hinv : OpenInv (Transition.init (some "None") 0 D) evs := by
    refine ⟨fun e _ => Nat.zero_le _, ?_, ?_, ?_⟩
    · intro x hx
      simp [Transition.init] at hx
    · intro p hp
      simp only [Transition.init, List.mem_map] at hp
      obtain ⟨a, _, h⟩ := hp
      rw [← h]
    · intro p hp
      simp only [Transition.init, List.mem_map] at hp
      obtain ⟨a, _, h⟩ := hp
      rw [← h]
  have hgood := segmentAll_good D evs _ hs hinv tf htf
  refine ⟨hgood.1, ?_, ?_⟩
  · intro k v h
    obtain ⟨p, hp, hpv⟩ := dget_mem _ _ _ h
    exact hgood.2.1 p hp v (by rw [hpv])
  · intro k v h
    obtain ⟨p, hp, hpv⟩ := dget_mem _ _ _ h
    exact hgood.2.2 p hp v (by rw [hpv])

/-- Concrete events for the C3 witness: the first closes the driver's
initial transition, the second folds into the next span. -/
def eW1 : Event := { time := 1, event := some "A", after_state := some "S" }

def eW2 : Event := { time := 2, event := some "A", after_state := some "S" }

/-- The transition that `segmentAll` closes and finalizes on
`[eW1, eW2]`: the driver's initial transition, closed by `eW1` at time 1
with an empty `between` list. -/
def tfW : Transition :=
  { state := some "None", begin_time := 0, end_time := 1, transition := none,
    after_transition := some "None -> S", between := [],
    time_to_reach_first := [("A", none)], time_to_reach_last := [("A", none)],
    RSSI := none, power_ratio := none }

theorem transition_time_bounds_witness :
    tfW.begin_time ≤ tfW.end_time
    ∧ (∀ k v, dget tfW.time_to_reach_first k = some (some v) →
          0 ≤ v ∧ v ≤ (tfW.end_time : ℤ) - (tfW.begin_time : ℤ))
    ∧ (∀ k v, dget tfW.time_to_reach_last k = some (some v) →
          0 ≤ v ∧ v ≤ (tfW.end_time : ℤ) - (tfW.begin_time : ℤ)) :=
  transition_time_bounds ["A"] [eW1, eW2] (by decide) tfW (by decide)

/-!
## Timestamp extraction (`Event.__getTime`, C4)

`__getTime` runs `re.search` with pattern `(\d+):(\d+):(\d+)[.](\d+)` on
each line of a record and adds the first match's value to the event's
running `time` (process_any.py lines 111-117; `addNewLine` calls it once
per line, and `time` starts at 0 in `__init__`).  The regex is modelled
by maximal-munch digit runs, which agrees with Python's leftmost-match
greedy semantics here because every `\d+` of the pattern is followed by a
non-digit character.
-/

/-- Python `int()` of a captured digit run. -/
def digitsToNat (ds : List Char) : Nat :=
  ds.foldl (fun n c => n * 10 + (c.toNat - 48)) 0

/-- Match `(\d+):(\d+):(\d+)[.](\d+)` anchored at the start of `cs`;
returns the four captured values and the remainder after the match. -/
def matchTimeAt (cs : List Char) : Option ((Nat × Nat × Nat × Nat) × List Char) :=
  let d1 := cs.takeWhile Char.isDigit
  let r1 := cs.dropWhile Char.isDigit
  if d1.isEmpty then none else
  match r1 with
  | ':' :: r2 =>
    let d2 := r2.takeWhile Char.isDigit
    let r3 := r2.dropWhile Char.isDigit
    if d2.isEmpty then none else
    match r3 with
    | ':' :: r4 =>
      let d3 := r4.takeWhile Char.isDigit
      let r5 := r4.dropWhile Char.isDigit
      if d3.isEmpty then none else
      match r5 with
      | '.' :: r6 =>
        let d4 := r6.takeWhile Char.isDigit
        let r7 := r6.dropWhile Char.isDigit
        if d4.isEmpty then none
        else some ((digitsToNat d1, digitsToNat d2, digitsToNat d3, digitsToNat d4), r7)
      | _ => none
    | _ => none
  | _ => none

/-- `re.search`: the leftmost match of the timestamp pattern. -/
def searchTime : List Char → Option (Nat × Nat × Nat × Nat)
  | [] => none
  | c :: cs =>
    match matchTimeAt (c :: cs) with
    | some (g, _) => some g
    | none => searchTime cs

/-- The increment `__getTime` adds to `self.time` for one line: the first
match's `ms + s*1000 + m*60*1000 + h*3600*1000`, or 0 when the line has
no match. -/
def getTimeLine (line : String) : Nat :=
  match searchTime line.data with
  | some (h, m, s, ms) => ms + s * 1000 + m * 60 * 1000 + h * 3600 * 1000
  | none => 0

/-- The event's final timestamp for a record (`__getTime` folded over the
record's lines, `time` starting at 0). -/
def recordTime (record : List String) : Nat :=
  record.foldl (fun t line => t + getTimeLine line) 0

/-- `re.findall` semantics for the same pattern: scan left to right,
continue after the end of each match.  This is the spec side of C4
("every substring found anywhere"); fuel-based recursion (each step
consumes at least one character). -/
def findAllTimesAux : Nat → List Char → List (Nat × Nat × Nat × Nat)
  | 0, _ => []
  | _ + 1, [] => []
  | fuel + 1, c :: cs =>
    match matchTimeAt (c :: cs) with
    | some (g, rest) => g :: findAllTimesAux fuel rest
    | none => findAllTimesAux fuel cs

def findAllTimes (cs : List Char) : List (Nat × Nat × Nat × Nat) :=
  findAllTimesAux cs.length cs

/-- The value C4 claims for a record: the sum over every match found
anywhere across the record's lines of `h*3600000 + m*60000 + s*1000 + ms`. -/
def allMatchesSum (record : List String) : Nat :=
  (record.map (fun line =>
    ((findAllTimes line.data).map
      (fun g => g.1 * 3600000 + g.2.1 * 60000 + g.2.2.1 * 1000 + g.2.2.2)).sum)).sum

/-- C4 counterexample: a record whose single line carries two timestamp
substrings.  `re.search` per line only adds the first one, so the code's
timestamp is 3600000 while the claimed sum over every match is 10800000. -/
theorem record_time_cex :
    recordTime ["2013 log 1:00:00.000 2:00:00.000"] = 3600000
    ∧ allMatchesSum ["2013 log 1:00:00.000 2:00:00.000"] = 10800000
    ∧ recordTime ["2013 log 1:00:00.000 2:00:00.000"]
        ≠ allMatchesSum ["2013 log 1:00:00.000 2:00:00.000"] :=
  ⟨by decide, by decide, by decide⟩

lemma foldl_add_sum (f : String → Nat) :
    ∀ (l : List String) (t : Nat),
      l.foldl (fun acc line => acc + f line) t = t + (l.map f).sum := by
  intro l
  induction l with
  | nil => intro t; simp
  | cons x xs ih =>
    intro t
    simp only [List.foldl_cons, List.map_cons, List.sum_cons, ih]
    omega

lemma getTimeLine_eq (line : String) :
    getTimeLine line
      = match searchTime line.data with
        | some g => g.1 * 3600000 + g.2.1 * 60000 + g.2.2.1 * 1000 + g.2.2.2
        | none => 0 := by
  unfold getTimeLine
  cases searchTime line.data with
  | none => rfl
  | some g =>
    obtain ⟨h, m, s, ms⟩ := g
    simp only []
    ring

/-- C4 amended: the event's final timestamp is the sum, over the record's
lines, of the value of the FIRST `H:MM:SS.mmm`-shaped match in each line
(`re.search` returns one match per line; later matches in the same line
are ignored). -/
theorem record_time_amended (record : List String) :
    recordTime record
      = (record.map (fun line =>
          match searchTime line.data with
          | some g => g.1 * 3600000 + g.2.1 * 60000 + g.2.2.1 * 1000 + g.2.2.2
          | none => 0)).sum := by
  unfold recordTime
  rw [foldl_add_sum getTimeLine record 0, Nat.zero_add]
  congr 1
  exact List.map_congr_left fun line _ => getTimeLine_eq line

/-!
## LTE state-change extraction (`Event.__getStateChange`, C5)
-/

/-- The character class `[A-Za-z_ ]` of the state-capture group. -/
def isStateChar (c : Char) : Bool := c.isAlpha || c = '_' || c = ' '

/-- Leftmost match of `RRC State = ([A-Za-z_ ]+)` (process_any.py line
248): find the literal, then capture the maximal non-empty run of class
characters; when the literal occurs with no class character after it the
scan continues at the next position, as the regex engine would. -/
def searchRRCState : List Char → Option String
  | [] => none
  | c :: rest =>
    if List.isPrefixOf "RRC State = ".data (c :: rest) then
      let after := (c :: rest).drop "RRC State = ".data.length
      let run := after.takeWhile isStateChar
      if run.isEmpty then searchRRCState rest else some (String.mk run)
    else searchRRCState rest

/-- The LTE branch of `Event.__getStateChange` (process_any.py lines
246-263), returning the updated event and the updated global
`Event.last_state`.  The WCDMA branch (lines 264-273) is guarded by the
disjoint event type `EVENT_WCDMA_RRC_STATE` and is referenced by no
claim, so it is not modelled. -/
def getStateChangeLTE (e : Event) (last : Option String) (line : String) :
    Event × Option String :=
  if e.event = some "EVENT_LTE_RRC_STATE_CHANGE" ∧ pyStartsWith line "Payload String" then
    match searchRRCState line.data with
    | none => (e, last)
    | some captured =>
      let e1 : Event := { e with after_state := some captured }
      if last = some captured then (e1, last)
      else ({ e1 with before_state := last }, some captured)
  else (e, last)

/-- A concrete LTE state-change event under construction (states still
`None`). -/
def eC5 : Event := { event := some "EVENT_LTE_RRC_STATE_CHANGE" }

/-- A concrete payload line capturing the after-state `Connected`. -/
def lineC5 : String := "Payload String = RRC State = Connected"

/-- C5 counterexample: when the captured state equals the previously known
global state, the source still assigns `self.after_state = match.group(1)`
(line 250) before the equality check (line 260), so `after_state` does NOT
remain `None` — refuting the claim's "before_state and after_state both
remain None".  (`before_state` and the global state are indeed
unchanged.) -/
theorem state_change_equal_cex :
    (getStateChangeLTE eC5 (some "Connected") lineC5).1.after_state ≠ none
    ∧ (getStateChangeLTE eC5 (some "Connected") lineC5).1.after_state = some "Connected"
    ∧ (getStateChangeLTE eC5 (some "Connected") lineC5).1.before_state = none
    ∧ (getStateChangeLTE eC5 (some "Connected") lineC5).2 = some "Connected" := by
  refine ⟨by decide, by decide, by decide, by decide⟩

/-- C5 amended: on an LTE state-change payload line whose capture is `v`,
if `v` equals the previously known global state then no transition is
recorded — `before_state` and the global state are unchanged — but
`after_state` is set to `v`; otherwise `before_state` is set to the
previous known state, `after_state` to `v`, and the global state to `v`. -/
theorem state_change_lte (e : Event) (last : Option String) (line : String) (v : String)
    (hev : e.event = some "EVENT_LTE_RRC_STATE_CHANGE")
    (hline : pyStartsWith line "Payload String" = true)
    (hmatch : searchRRCState line.data = some v) :
    (last = some v →
       getStateChangeLTE e last line = ({ e with after_state := some v }, last))
    ∧ (last ≠ some v →
       getStateChangeLTE e last line
         = ({ e with after_state := some v, before_state := last }, some v)) := by
  unfold getStateChangeLTE
  rw [if_pos ⟨hev, hline⟩, hmatch]
  dsimp only
  constructor
  · intro h
    rw [if_pos h]
  · intro h
    rw [if_neg h]

theorem state_change_lte_witness :
    (getStateChangeLTE eC5 (some "Connected") lineC5
       = ({ eC5 with after_state := some "Connected" }, some "Connected"))
    ∧ (getStateChangeLTE eC5 (some "Idle Camped") lineC5
       = ({ eC5 with after_state := some "Connected", before_state := some "Idle Camped" },
           some "Connected")) :=
  ⟨(state_change_lte eC5 (some "Connected") lineC5 "Connected" rfl (by decide) (by decide)).1 rfl,
   (state_change_lte eC5 (some "Idle Camped") lineC5 "Connected" rfl (by decide) (by decide)).2
     (by decide)⟩

/-!
## Signal-strength extraction (`Event.__getSignalStrengths`, C6)

The source (process_any.py lines 222-243) splits the line on `"|"`,
requires at least 10 fields, parses floats out of a sign-selected column
layout, assigning `self.RSSI`, `self.RSRP`, `self.RSRQ`,
`self.power_ratio` in that order inside one `try`, and publishes the
snapshot into the class variables on full success.  An exception at any
step (`float()` on a non-numeric field, or division by zero) aborts the
remaining assignments but keeps the ones already made — this sequential
exception semantics is modelled step by step below.
-/

/-- Python `line.split(c)` over characters (keeps empty fields). -/
def splitChars (c : Char) : List Char → List (List Char)
  | [] => [[]]
  | x :: xs =>
    let r := splitChars c xs
    if x = c then [] :: r
    else
      match r with
      | [] => [[x]]
      | y :: ys => (x :: y) :: ys

/-- Python `float()` on the plain decimal forms that occur in these trace
fields: optional sign, digits with optional fractional part, surrounding
spaces stripped; `none` (an exception) on anything else.  Exponent and
infinity/NaN forms do not occur in these fields and are not modelled. -/
def pyFloat (cs0 : List Char) : Option ℚ :=
  let cs := ((cs0.dropWhile (· = ' ')).reverse.dropWhile (· = ' ')).reverse
  let neg : Bool := match cs with | '-' :: _ => true | _ => false
  let cs2 := match cs with | '-' :: r => r | '+' :: r => r | r => r
  let ip := cs2.takeWhile Char.isDigit
  let rest := cs2.dropWhile Char.isDigit
  let mkVal : List Char → List Char → Option ℚ := fun ip fr =>
    some (mkRat ((if neg then -1 else 1)
          * ((digitsToNat ip * 10 ^ fr.length + digitsToNat fr : Nat) : ℤ)) (10 ^ fr.length))
  match rest with
  | [] => if ip.isEmpty then none else mkVal ip []
  | '.' :: fr =>
      if fr.all Char.isDigit ∧ ¬ (ip.isEmpty ∧ fr.isEmpty) then mkVal ip fr else none
  | _ => none

/-- `Event.__getSignalStrengths` (process_any.py lines 222-243), with the
try/except's partial-assignment semantics made explicit.  Returns the
updated event and the updated process-wide snapshot. -/
def getSignalStrengths (e : Event) (g : SignalGlobals) (line : String) :
    Event × SignalGlobals :=
  let fields := splitChars '|' line.data
  if fields.length < 10 then (e, g) else
  match pyFloat (fields.getD 2 []) with
  | none => (e, g)
  | some v2 =>
    if 0 ≤ v2 then
      match pyFloat (fields.getD 3 []) with
      | none => (e, g)
      | some rssi =>
        let e1 : Event := { e with RSSI := some rssi }
        match pyFloat (fields.getD 4 []) with
        | none => (e1, g)
        | some rsrp =>
          let e2 : Event := { e1 with RSRP := some rsrp }
          match pyFloat (fields.getD 7 []) with
          | none => (e2, g)
          | some rsrq =>
            let e3 : Event := { e2 with RSRQ := some rsrq }
            if rsrq = 0 then (e3, g)
            else
              ({ e3 with power_ratio := some (rsrp / rsrq) },
               { RSSI := some rssi, power_ratio := some (rsrp / rsrq) })
    else
      let e1 : Event := { e with RSSI := some v2 }
      match pyFloat (fields.getD 3 []) with
      | none => (e1, g)
      | some rsrp =>
        let e2 : Event := { e1 with RSRP := some rsrp }
        match pyFloat (fields.getD 6 []) with
        | none => (e2, g)
        | some rsrq =>
          let e3 : Event := { e2 with RSRQ := some rsrq }
          if rsrq = 0 then (e3, g)
          else
            ({ e3 with power_ratio := some (rsrp / rsrq) },
             { RSSI := some v2, power_ratio := some (rsrp / rsrq) })

/-- A fresh event and empty snapshot for the C6 counterexample. -/
def eC6 : Event := {}

def gC6 : SignalGlobals := {}

/-- A 10-field line whose field 4 is not numeric: fields 2 and 3 parse,
so `self.RSSI` is assigned, then `float(line[4])` raises. -/
def lineC6 : String := "a|b|1|2|x|c|d|e|f|g"

/-- C6 counterexample: on `lineC6` a parse step fails (field 4 is not
numeric), yet the event does NOT retain its previous snapshot: `RSSI` has
already been overwritten by the time the exception is raised.  (`RSRP`,
`RSRQ`, `power_ratio` and the process-wide snapshot are unchanged.) -/
theorem signal_partial_mutation_cex :
    pyFloat ((splitChars '|' lineC6.data).getD 4 []) = none
    ∧ (getSignalStrengths eC6 gC6 lineC6).1.RSSI ≠ eC6.RSSI
    ∧ (getSignalStrengths eC6 gC6 lineC6).1.RSRP = eC6.RSRP
    ∧ (getSignalStrengths eC6 gC6 lineC6).2 = gC6 := by
  refine ⟨by decide, by decide, by decide, by decide⟩

/-- C6 amended: every run of `__getSignalStrengths` either (failure or
short line) leaves the event's `power_ratio` and the process-wide
snapshot unchanged — though fields assigned before the failing step
(`RSSI`, possibly `RSRP`/`RSRQ`) may keep newly parsed values — or (full
success) sets all four fields and publishes exactly the event's new
`RSSI`/`power_ratio` as the process-wide snapshot. -/
theorem signal_failure_swallowed (e : Event) (g : SignalGlobals) (line : String) :
    ((getSignalStrengths e g line).2 = g
      ∧ (getSignalStrengths e g line).1.power_ratio = e.power_ratio)
    ∨ ((getSignalStrengths e g line).1.RSSI ≠ none
      ∧ (getSignalStrengths e g line).1.RSRP ≠ none
      ∧ (getSignalStrengths e g line).1.RSRQ ≠ none
      ∧ (getSignalStrengths e g line).1.power_ratio ≠ none
      ∧ (getSignalStrengths e g line).2
          = { RSSI := (getSignalStrengths e g line).1.RSSI,
              power_ratio := (getSignalStrengths e g line).1.power_ratio }) := by
  unfold getSignalStrengths
  dsimp only
  split
  · left; exact ⟨rfl, rfl⟩
  · split
    · left; exact ⟨rfl, rfl⟩
    · next v2 _ =>
      split
      · split
        · left; exact ⟨rfl, rfl⟩
        · next rssi _ =>
          split
          · left; exact ⟨rfl, rfl⟩
          · next rsrp _ =>
            split
            · left; exact ⟨rfl, rfl⟩
            · next rsrq _ =>
              split
              · left; exact ⟨rfl, rfl⟩
              · right
                exact ⟨by simp, by simp, by simp, by simp, rfl⟩
      · split
        · left; exact ⟨rfl, rfl⟩
        · next rsrp _ =>
          split
          · left; exact ⟨rfl, rfl⟩
          · next rsrq _ =>
            split
            · left; exact ⟨rfl, rfl⟩
            · right
              exact ⟨by simp, by simp, by simp, by simp, rfl⟩

/-!
## Packet conversion (`Event.addUpperLayerPackets`, C7 and C10)
-/

/-- The interface of one decoded packet record, as exposed by the external
`packet_analyzer` collaborator: timestamp, destination address, candidate
flag. -/
structure Packet where
  time : Option Nat
  dst : String
  is_candidate : Bool
deriving Repr, DecidableEq

/-- The hardcoded local/device address (process_any.py line 90). -/
def localIP : String := "141.212.113.208"

/-- The Event built for one packet record (process_any.py lines 95-102):
`Event.__init__` copies the process-wide signal snapshot, then the driver
sets `time` and classifies the type. -/
def mkPacketEvent (g : SignalGlobals) (p : Packet) (t : Nat) : Event :=
  { time := t
    event := some (if p.is_candidate = false then "PACKET_OTHER"
                   else if p.dst = localIP then "PACKET_SENT" else "PACKET_RCV")
    RSSI := g.RSSI
    power_ratio := g.power_ratio }

/-- `Event.addUpperLayerPackets` (process_any.py lines 88-108): convert
every packet record to exactly one Event and insert it into
`Event.all_events`; `assert(Event.current_event.time != None)` is the
only fatal condition and aborts the conversion. -/
def addUpperLayerPackets (g : SignalGlobals) (ps : List Packet)
    (m : List (Nat × List Event)) : Except Unit (List (Nat × List Event)) :=
  match ps with
  | [] => .ok m
  | p :: rest =>
    match p.time with
    | none => .error ()
    | some t => addUpperLayerPackets g rest (insertEvent m (mkPacketEvent g p t))

/-- Total number of events stored in the multimap. -/
def totalEvents (m : List (Nat × List Event)) : Nat :=
  (m.map (fun p => p.2.length)).sum

lemma totalEvents_cons (t : Nat) (es : List Event) (rest : List (Nat × List Event)) :
    totalEvents ((t, es) :: rest) = es.length + totalEvents rest := by
  simp [totalEvents]

lemma totalEvents_insertEvent (m : List (Nat × List Event)) (e : Event) :
    totalEvents (insertEvent m e) = totalEvents m + 1 := by
  induction m with
  | nil => simp [insertEvent, totalEvents]
  | cons p rest ih =>
    obtain ⟨t, es⟩ := p
    by_cases h : t = e.time
    · simp only [insertEvent, if_pos h, totalEvents_cons, List.length_append,
        List.length_singleton]
      omega
    · simp only [insertEvent, if_neg h, totalEvents_cons, ih]
      omega

lemma mkPacketEvent_time (g : SignalGlobals) (p : Packet) (t : Nat) :
    (mkPacketEvent g p t).time = t := rfl

lemma addUpperLayerPackets_ok (g : SignalGlobals) :
    ∀ (ps : List Packet) (m : List (Nat × List Event)),
      (∀ p ∈ ps, p.time ≠ none) →
      ∃ m', addUpperLayerPackets g ps m = .ok m'
        ∧ totalEvents m' = totalEvents m + ps.length
        ∧ ∀ k, bucketGet m' k
            = bucketGet m k ++ (ps.filter (fun p => p.time == some k)).map
                (fun p => mkPacketEvent g p (p.time.getD 0)) := by
  intro ps
  induction ps with
  | nil =>
    intro m _
    exact ⟨m, rfl, by simp, fun k => by simp⟩
  | cons p rest ih =>
    intro m hall
    have hp := hall p (List.mem_cons_self _ _)
    cases hpt : p.time with
    | none => exact absurd hpt hp
    | some t =>
      obtain ⟨m', hm', htot, hbuck⟩ :=
        ih (insertEvent m (mkPacketEvent g p t))
          (fun q hq => hall q (List.mem_cons_of_mem _ hq))
      refine ⟨m', ?_, ?_, ?_⟩
      · simp [addUpperLayerPackets, hpt, hm']
      · rw [htot, totalEvents_insertEvent]
        simp [List.length_cons]
        omega
      · intro k
        rw [hbuck k, bucketGet_insertEvent]
        by_cases hk : t = k
        · subst hk
          simp [List.filter_cons, hpt, mkPacketEvent_time, List.append_assoc]
        · simp [List.filter_cons, hpt, mkPacketEvent_time, hk]

lemma addUpperLayerPackets_error (g : SignalGlobals) :
    ∀ (ps : List Packet) (m : List (Nat × List Event)),
      (∃ p ∈ ps, p.time = none) → addUpperLayerPackets g ps m = .error () := by
  intro ps
  induction ps with
  | nil =>
    rintro m ⟨p, hp, _⟩
    simp at hp
  | cons p rest ih =>
    rintro m ⟨q, hq, hqt⟩
    cases hpt : p.time with
    | none => simp [addUpperLayerPackets, hpt]
    | some t =>
      rcases List.mem_cons.mp hq with h | h
      · rw [h] at hqt
        rw [hqt] at hpt
        cases hpt
      · simp only [addUpperLayerPackets, hpt]
        exact ih _ ⟨q, h, hqt⟩

/-- C7: with every packet record carrying a timestamp, the conversion
succeeds, adds exactly one Event per record, and the bucket of any
timestamp `k` gains exactly the events of the packets timestamped `k`, in
order, each carrying the record's own time and the candidate/destination
classification (`PACKET_OTHER` / `PACKET_SENT` when the destination is
the configured address / `PACKET_RCV`); a packet record without a
timestamp makes the conversion fail with the assertion error instead. -/
theorem packets_to_events (g : SignalGlobals) (ps : List Packet)
    (m : List (Nat × List Event)) :
    ((∀ p ∈ ps, p.time ≠ none) →
      ∃ m', addUpperLayerPackets g ps m = .ok m'
        ∧ totalEvents m' = totalEvents m + ps.length
        ∧ ∀ k, bucketGet m' k
            = bucketGet m k ++ (ps.filter (fun p => p.time == some k)).map
                (fun p => mkPacketEvent g p (p.time.getD 0)))
    ∧ ((∃ p ∈ ps, p.time = none) → addUpperLayerPackets g ps m = .error ())
    ∧ (∀ p t, (mkPacketEvent g p t).time = t
        ∧ (mkPacketEvent g p t).event
            = some (if p.is_candidate = false then "PACKET_OTHER"
                    else if p.dst = localIP then "PACKET_SENT" else "PACKET_RCV")) :=
  ⟨addUpperLayerPackets_ok g ps m, addUpperLayerPackets_error g ps m,
   fun _ _ => ⟨rfl, rfl⟩⟩

/-- Concrete packets for the C7 witness. -/
def pW1 : Packet := { time := some 7, dst := "141.212.113.208", is_candidate := true }

def pWnone : Packet := { time := none, dst := "10.0.0.1", is_candidate := false }

theorem packets_to_events_witness :
    (∃ m', addUpperLayerPackets gC6 [pW1] [] = .ok m'
      ∧ totalEvents m' = totalEvents [] + [pW1].length
      ∧ ∀ k, bucketGet m' k
          = bucketGet [] k ++ ([pW1].filter (fun p => p.time == some k)).map
              (fun p => mkPacketEvent gC6 p (p.time.getD 0)))
    ∧ addUpperLayerPackets gC6 [pWnone] [] = .error () :=
  ⟨(packets_to_events gC6 [pW1] []).1 (by decide),
   (packets_to_events gC6 [pWnone] []).2.1 ⟨pWnone, List.mem_singleton_self _, rfl⟩⟩

lemma addUpperLayerPackets_mem (g : SignalGlobals) :
    ∀ (ps : List Packet) (m m' : List (Nat × List Event)),
      addUpperLayerPackets g ps m = .ok m' →
      ∀ k e, e ∈ bucketGet m' k →
        e ∈ bucketGet m k ∨ (e.RSSI = g.RSSI ∧ e.power_ratio = g.power_ratio) := by
  intro ps
  induction ps with
  | nil =>
    intro m m' h k e he
    simp only [addUpperLayerPackets] at h
    injection h with h
    subst h
    exact Or.inl he
  | cons p rest ih =>
    intro m m' h k e he
    cases hpt : p.time with
    | none =>
      rw [addUpperLayerPackets, hpt] at h
      cases h
    | some t =>
      rw [addUpperLayerPackets, hpt] at h
      rcases ih _ _ h k e he with hmem | hsnap
      · rw [bucketGet_insertEvent] at hmem
        rcases List.mem_append.mp hmem with hmem | hmem
        · exact Or.inl hmem
        · right
          have : e = mkPacketEvent g p t := by
            revert hmem
            split <;> simp
          rw [this]
          exact ⟨rfl, rfl⟩
      · exact Or.inr hsnap

/-- C10: every Event added by the packet-conversion stage carries the
process-wide signal snapshot passed to it — in the driver, the snapshot
as it stands after the whole trace parse (addUpperLayerPackets is called
at line 606, after the line loop, and nothing in the packet loop updates
the snapshot) — regardless of the packet's own timestamp; hence all
packet-derived events of a run share one identical snapshot. -/
theorem packet_events_final_snapshot (g : SignalGlobals) (ps : List Packet)
    (m m' : List (Nat × List Event)) (h : addUpperLayerPackets g ps m = .ok m') :
    ∀ k e, e ∈ bucketGet m' k →
      e ∈ bucketGet m k ∨ (e.RSSI = g.RSSI ∧ e.power_ratio = g.power_ratio) :=
  addUpperLayerPackets_mem g ps m m' h

/-- A non-trivial snapshot for the C10 witness. -/
def gW : SignalGlobals := { RSSI := some (mkRat 5 1), power_ratio := some (mkRat 3 2) }

/-- The multimap produced by converting `[pW1]` from an empty map under
`gW`. -/
def mW : List (Nat × List Event) := insertEvent [] (mkPacketEvent gW pW1 7)

theorem packet_events_final_snapshot_witness :
    mkPacketEvent gW pW1 7 ∈ bucketGet [] 7
    ∨ ((mkPacketEvent gW pW1 7).RSSI = gW.RSSI
        ∧ (mkPacketEvent gW pW1 7).power_ratio = gW.power_ratio) :=
  packet_events_final_snapshot gW [pW1] [] mW rfl 7 (mkPacketEvent gW pW1 7) (by decide)

end RRC
